import Mathlib

/-!
Verification of the payroll mock-data generator
(`scripts/generate_mock_data.py` of the work-payroll-project repository).

Modelling conventions:
- dates are day counts from `2022-01-01` (so `START_DATE = 0`,
  `END_DATE = 1095` which is `2024-12-31`);
- money and hours are rationals; `round(x, 2)` becomes `round2`;
- random draws performed by the source are explicit parameters (a raw
  draw from `random.random()` is a rational in `[0, 1)`, a draw from
  `random.uniform(a, b)` is modelled as `a + (b - a) * q` with `q` raw);
- a Python expression that raises (division by zero) makes the
  embedding return `none`.
-/

/-- Module constant `BASELINE_MONTHLY_COST = 596000`. -/
def BASELINE_MONTHLY_COST : ℚ := 596000

/-- Module constant `BASELINE_EMPLOYEES = 24`. -/
def BASELINE_EMPLOYEES : ℕ := 24

/-- Module constant `START_DATE = datetime(2022, 1, 1)`, as day 0. -/
def START_DATE : ℕ := 0

/-- Module constant `END_DATE = datetime(2024, 12, 31)`, as day count from `START_DATE`. -/
def END_DATE : ℕ := 1095

/-- Python's `round(x, 2)`: round to two decimal places.  Ties are rounded
half-up here; every bound proved below only uses `|round2 q - q| ≤ 1/200`,
which holds for Python's bankers rounding as well. -/
def round2 (q : ℚ) : ℚ := (round (q * 100) : ℤ) / 100

/-- The employee dictionaries built by `_generate_employee_roster`. -/
structure Employee where
  employee_id : String
  employee_name : String
  title : String
  hire_date : ℕ
  annual_salary : ℚ
  hourly_rate : ℚ
  is_hourly : Bool
  department : String
  active : Bool
  termination_date : Option ℕ
deriving DecidableEq, Repr

/-- `sum(emp["annual_salary"] for emp in self.employees)`. -/
def sumSalaries (roster : List Employee) : ℚ := (roster.map Employee.annual_salary).sum

/-- `_calibrate_salaries` (lines 150-161): computes
`adjustment_factor = target_annual / total_annual` and multiplies every
employee's `annual_salary` and `hourly_rate` by it.  The source performs no
validation; when the pre-calibration aggregate is zero the Python division
raises `ZeroDivisionError`, modelled by `none` (no roster is returned, so
nothing is mutated).  No other input makes it fail. -/
def calibrate (roster : List Employee) (target_annual : ℚ) : Option (List Employee) :=
  if sumSalaries roster = 0 then none
  else
    let adjustment_factor := target_annual / sumSalaries roster
    some (roster.map (fun e =>
      { e with annual_salary := e.annual_salary * adjustment_factor,
               hourly_rate := e.hourly_rate * adjustment_factor }))

theorem sum_map_salary_mul (l : List Employee) (c : ℚ) :
    ((l.map (fun e =>
      { e with annual_salary := e.annual_salary * c,
               hourly_rate := e.hourly_rate * c })).map Employee.annual_salary).sum
      = sumSalaries l * c := by
  induction l with
  | nil => simp [sumSalaries]
  | cons e t ih =>
      simp only [List.map_cons, List.sum_cons, sumSalaries] at ih ⊢
      rw [ih]
      ring

theorem calibrate_sum (roster : List Employee) (t : ℚ) (h : sumSalaries roster ≠ 0) :
    ∃ r', calibrate roster t = some r' ∧ sumSalaries r' = t := by
  refine ⟨roster.map (fun e =>
      { e with annual_salary := e.annual_salary * (t / sumSalaries roster),
               hourly_rate := e.hourly_rate * (t / sumSalaries roster) }),
    by simp [calibrate, h], ?_⟩
  show ((roster.map _).map Employee.annual_salary).sum = t
  rw [sum_map_salary_mul]
  field_simp [sumSalaries]
  rw [mul_comm]
  exact mul_div_cancel_right₀ t h

/-- C1: for every roster with positive pre-calibration aggregate annual salary
and every positive target, calibration succeeds and the post-calibration
aggregate `sum(annual_salary)` satisfies `|sum - target| < 1e-6 * target`. -/
theorem calibration_exactness (roster : List Employee) (target : ℚ)
    (hpos : 0 < sumSalaries roster) (ht : 0 < target) :
    ∃ roster', calibrate roster target = some roster' ∧
      |sumSalaries roster' - target| < (1 / 1000000) * target := by
  obtain ⟨r', hr', hsum⟩ := calibrate_sum roster target (ne_of_gt hpos)
  refine ⟨r', hr', ?_⟩
  rw [hsum, sub_self, abs_zero]
  positivity

/-- A concrete employee used to instantiate hypotheses of the theorems below. -/
def empA : Employee :=
  { employee_id := "EMP001", employee_name := "Sarah Johnson", title := "CEO",
    hire_date := 0, annual_salary := 100, hourly_rate := 1, is_hourly := false,
    department := "Executive", active := true, termination_date := none }

theorem calibration_exactness_witness :
    ∃ roster', calibrate [empA] 50 = some roster' ∧
      |sumSalaries roster' - 50| < (1 / 1000000) * 50 :=
  calibration_exactness [empA] 50 (by norm_num [sumSalaries, empA]) (by norm_num)

/-- `BENEFITS_RATES` and `TAX_RATES` (lines 68-81). -/
def TAX_federal_income : ℚ := 12 / 100

def TAX_state_income : ℚ := 5 / 100

def TAX_social_security : ℚ := 62 / 1000

def TAX_medicare : ℚ := 145 / 10000

def TAX_unemployment : ℚ := 6 / 1000

def BEN_health_insurance : ℚ := 8 / 100

def BEN_dental_vision : ℚ := 15 / 1000

def BEN_retirement_401k : ℚ := 4 / 100

def BEN_life_insurance : ℚ := 5 / 1000

/-- `SEASONAL_MULTIPLIERS.get(pay_date.month, 1.0)` (lines 52-65, 258):
the twelve-entry table, with default multiplier 1 for any other key. -/
def seasonalMultiplier (month : ℕ) : ℚ :=
  if month = 1 then 95/100 else if month = 2 then 98/100 else
  if month = 3 then 105/100 else if month = 4 then 102/100 else
  if month = 5 then 108/100 else if month = 6 then 106/100 else
  if month = 7 then 92/100 else if month = 8 then 90/100 else
  if month = 9 then 110/100 else if month = 10 then 108/100 else
  if month = 11 then 105/100 else if month = 12 then 88/100 else 1

theorem seasonalMultiplier_bounds (m : ℕ) :
    88/100 ≤ seasonalMultiplier m ∧ seasonalMultiplier m ≤ 110/100 := by
  by_cases h : m ≤ 12
  · interval_cases m <;> constructor <;> norm_num [seasonalMultiplier]
  · have he : seasonalMultiplier m = 1 := by
      unfold seasonalMultiplier
      repeat rw [if_neg (by omega)]
    rw [he]
    constructor <;> norm_num

/-- The record dictionary returned by `_generate_payroll_record` (lines 295-322).
The constant `source_type` and the date-formatted `filename` string fields are
not modelled. -/
structure PayrollRecord where
  employee_id : String
  employee_name : String
  department : String
  pay_period_start : ℤ
  pay_period_end : ℕ
  hours_worked : ℚ
  hourly_rate : ℚ
  gross_pay : ℚ
  federal_tax : ℚ
  state_tax : ℚ
  fica_tax : ℚ
  medicare_tax : ℚ
  total_taxes : ℚ
  net_pay : ℚ
  employer_fica : ℚ
  employer_medicare : ℚ
  employer_unemployment : ℚ
  health_insurance : ℚ
  dental_vision : ℚ
  retirement_401k : ℚ
  life_insurance : ℚ
  total_employer_burden : ℚ
  true_cost : ℚ
  burden_rate : ℚ
deriving DecidableEq, Repr

/-- Unrounded gross pay of `_generate_payroll_record` (lines 248-263):
base pay (hourly: `hours_worked * hourly_rate`; salaried: `annual_salary / 26`)
times `seasonal_factor * variation`. -/
def grossPay (e : Employee) (month : ℕ) (hours_worked variation : ℚ) : ℚ :=
  (if e.is_hourly then hours_worked * e.hourly_rate else e.annual_salary / 26)
    * (seasonalMultiplier month * variation)

/-- `total_taxes = federal_tax + state_tax + fica_tax + medicare_tax`
(lines 266-269, 288), as a function of the unrounded gross pay. -/
def totalTaxesOf (g : ℚ) : ℚ :=
  g * TAX_federal_income + g * TAX_state_income + g * TAX_social_security + g * TAX_medicare

/-- `total_employer_burden` (lines 272-285), as a function of the employee
and the unrounded gross pay: employer FICA, Medicare and unemployment taxes
on gross pay, plus health/dental/life benefits pro-rated from annual salary
and a retirement match on gross pay. -/
def employerBurdenOf (e : Employee) (g : ℚ) : ℚ :=
  g * TAX_social_security + g * TAX_medicare + g * TAX_unemployment +
  e.annual_salary * BEN_health_insurance / 26 + e.annual_salary * BEN_dental_vision / 26 +
  g * BEN_retirement_401k + e.annual_salary * BEN_life_insurance / 26

/-- The record dictionary literal of `_generate_payroll_record`
(lines 295-322), given the unrounded `hours_worked` and gross pay `g`;
every numeric field is rounded to 2 decimals exactly as in the source. -/
def payrollRecordOf (e : Employee) (pay_date : ℕ) (hours_worked g : ℚ) : PayrollRecord :=
  { employee_id := e.employee_id
    employee_name := e.employee_name
    department := e.department
    pay_period_start := (pay_date : ℤ) - 13
    pay_period_end := pay_date
    hours_worked := round2 hours_worked
    hourly_rate := round2 e.hourly_rate
    gross_pay := round2 g
    federal_tax := round2 (g * TAX_federal_income)
    state_tax := round2 (g * TAX_state_income)
    fica_tax := round2 (g * TAX_social_security)
    medicare_tax := round2 (g * TAX_medicare)
    total_taxes := round2 (totalTaxesOf g)
    net_pay := round2 (g - totalTaxesOf g)
    employer_fica := round2 (g * TAX_social_security)
    employer_medicare := round2 (g * TAX_medicare)
    employer_unemployment := round2 (g * TAX_unemployment)
    health_insurance := round2 (e.annual_salary * BEN_health_insurance / 26)
    dental_vision := round2 (e.annual_salary * BEN_dental_vision / 26)
    retirement_401k := round2 (g * BEN_retirement_401k)
    life_insurance := round2 (e.annual_salary * BEN_life_insurance / 26)
    total_employer_burden := round2 (employerBurdenOf e g)
    true_cost := round2 (g + employerBurdenOf e g)
    burden_rate := round2 (employerBurdenOf e g / g * 100) }

/-- `_generate_payroll_record` (lines 244-322).  `hours_draw` is the value of
`random.uniform(70, 85)` (used only for hourly employees; salaried employees
get the fixed `hours_worked = 80`), `variation` the value of
`random.uniform(0.95, 1.05)`, `month` the month of `pay_date`.
The source computes `burden_rate = (total_employer_burden / gross_pay) * 100`
(line 293) with no guard; when `gross_pay = 0` that division raises
`ZeroDivisionError`, modelled by `none` (the exception propagates: no record
is produced and the surrounding `generate_payroll_data` loop is aborted, not
continued). -/
def generatePayrollRecord (e : Employee) (pay_date month : ℕ) (hours_draw variation : ℚ) :
    Option PayrollRecord :=
  if grossPay e month (if e.is_hourly then hours_draw else 80) variation = 0 then none
  else some (payrollRecordOf e pay_date (if e.is_hourly then hours_draw else 80)
    (grossPay e month (if e.is_hourly then hours_draw else 80) variation))

theorem round2_sub_abs (q : ℚ) : |round2 q - q| ≤ 1 / 200 := by
  have h : |q * 100 - round (q * 100)| ≤ 1 / 2 := abs_sub_round (q * 100)
  have heq : round2 q - q = -((q * 100 - (round (q * 100) : ℚ)) / 100) := by
    rw [round2]
    ring
  rw [heq, abs_neg, abs_div]
  rw [abs_of_nonneg (by norm_num : (0:ℚ) ≤ 100)]
  linarith

theorem round2_add_bound (a b : ℚ) :
    |round2 (a + b) - (round2 a + round2 b)| ≤ 1 / 100 := by
  have h1 := round2_sub_abs (a + b)
  have h2 := round2_sub_abs a
  have h3 := round2_sub_abs b
  have hd : |round2 (a + b) - (round2 a + round2 b)| ≤ 3 / 200 := by
    have hsplit : round2 (a + b) - (round2 a + round2 b)
        = (round2 (a + b) - (a + b)) - (round2 a - a) - (round2 b - b) := by ring
    rw [hsplit]
    calc |round2 (a + b) - (a + b) - (round2 a - a) - (round2 b - b)|
        ≤ |round2 (a + b) - (a + b) - (round2 a - a)| + |round2 b - b| := abs_sub _ _
      _ ≤ |round2 (a + b) - (a + b)| + |round2 a - a| + |round2 b - b| := by
          have := abs_sub (round2 (a + b) - (a + b)) (round2 a - a)
          linarith
      _ ≤ 3 / 200 := by linarith
  have hm : round2 (a + b) - (round2 a + round2 b)
      = ((round ((a + b) * 100) - round (a * 100) - round (b * 100) : ℤ) : ℚ) / 100 := by
    simp only [round2]
    push_cast
    ring
  have habs : |(100:ℚ)| = 100 := by norm_num
  rw [hm] at hd ⊢
  rw [abs_div, habs] at hd ⊢
  set m : ℤ := round ((a + b) * 100) - round (a * 100) - round (b * 100)
  have hmQ : |(m : ℚ)| ≤ 3 / 2 := by
    have := (div_le_div_iff₀ (by norm_num : (0:ℚ) < 100) (by norm_num : (0:ℚ) < 200)).mp
      (by linarith : |(m : ℚ)| / 100 ≤ 3 / 200)
    linarith
  have hm1 : |m| ≤ 1 := by
    have h2 : |(m : ℚ)| < 2 := by linarith
    have h2' : |m| < 2 := by exact_mod_cast h2
    omega
  have hfin : |(m : ℚ)| ≤ 1 := by exact_mod_cast hm1
  linarith

theorem round2_sub_bound (a b : ℚ) :
    |round2 (a - b) - (round2 a - round2 b)| ≤ 1 / 100 := by
  have h := round2_add_bound (a - b) b
  rw [sub_add_cancel] at h
  have heq : round2 (a - b) - (round2 a - round2 b)
      = -(round2 a - (round2 (a - b) + round2 b)) := by ring
  rw [heq, abs_neg]
  exact h

/-- C2: every PayrollRecord produced by `_generate_payroll_record` satisfies
`true_cost == gross_pay + total_employer_burden` and
`net_pay == gross_pay - total_taxes`, each within 0.01 absolute tolerance,
on the rounded-to-2-decimals stored field values. -/
theorem payroll_financial_identity (e : Employee) (pay_date month : ℕ)
    (hours_draw variation : ℚ) (rec : PayrollRecord)
    (h : generatePayrollRecord e pay_date month hours_draw variation = some rec) :
    |rec.true_cost - (rec.gross_pay + rec.total_employer_burden)| ≤ 1 / 100 ∧
    |rec.net_pay - (rec.gross_pay - rec.total_taxes)| ≤ 1 / 100 := by
  unfold generatePayrollRecord at h
  obtain ⟨hg, hrec⟩ := Option.ite_none_left_eq_some.mp h
  obtain rfl := Option.some.inj hrec
  exact ⟨round2_add_bound _ _, round2_sub_bound _ _⟩

/-- A concrete salaried employee whose payroll arithmetic lands on exact
2-decimal values (annual salary 2600 gives bi-weekly gross pay 100). -/
def empB : Employee :=
  { employee_id := "EMP002", employee_name := "Michael Chen", title := "Software Engineer",
    hire_date := 0, annual_salary := 2600, hourly_rate := 1, is_hourly := false,
    department := "Engineering", active := true, termination_date := none }

theorem payroll_financial_identity_witness :
    |(payrollRecordOf empB 13 80 100).true_cost -
        ((payrollRecordOf empB 13 80 100).gross_pay +
          (payrollRecordOf empB 13 80 100).total_employer_burden)| ≤ 1 / 100 ∧
    |(payrollRecordOf empB 13 80 100).net_pay -
        ((payrollRecordOf empB 13 80 100).gross_pay -
          (payrollRecordOf empB 13 80 100).total_taxes)| ≤ 1 / 100 :=
  payroll_financial_identity empB 13 13 80 1 (payrollRecordOf empB 13 80 100)
    (by norm_num [generatePayrollRecord, grossPay, seasonalMultiplier, empB])

/-- An hourly employee with hourly rate 0: its gross pay is 0 for every
period, draw and month. -/
def empZero : Employee :=
  { employee_id := "EMPZ", employee_name := "Zero Rate", title := "Contractor",
    hire_date := 0, annual_salary := 0, hourly_rate := 0, is_hourly := true,
    department := "Operations", active := true, termination_date := none }

/-- C5 (code-bug evidence): at an (employee, period) pair with `gross_pay = 0`
the source reaches the unguarded division
`burden_rate = (total_employer_burden / gross_pay) * 100` and raises
`ZeroDivisionError` (= `none` in this embedding), so the numeric exception
propagates out of `_generate_payroll_record` and aborts the
`generate_payroll_data` run; the record is not skipped and the run does not
continue as the specification requires. -/
theorem zero_gross_pay_unguarded :
    grossPay empZero 1 80 1 = 0 ∧ generatePayrollRecord empZero 13 1 80 1 = none := by
  constructor <;> norm_num [grossPay, generatePayrollRecord, empZero, seasonalMultiplier]

/-- C10: for an hourly employee with positive hourly rate, or a salaried
employee with positive annual salary, the seasonal multiplier lies in
[0.88, 1.10], the computed gross pay is strictly positive whenever the hours
draw is in [70, 85] and the variation draw is in [0.95, 1.05], and hence the
burden-rate division in `_generate_payroll_record` never divides by zero: a
record is always produced. -/
theorem gross_pay_positive (e : Employee) (pay_date month : ℕ) (hours_draw variation : ℚ)
    (hcomp : if e.is_hourly then 0 < e.hourly_rate else 0 < e.annual_salary)
    (hhours : 70 ≤ hours_draw ∧ hours_draw ≤ 85)
    (hvar : 19/20 ≤ variation ∧ variation ≤ 21/20) :
    (88/100 ≤ seasonalMultiplier month ∧ seasonalMultiplier month ≤ 110/100) ∧
    0 < grossPay e month (if e.is_hourly then hours_draw else 80) variation ∧
    (generatePayrollRecord e pay_date month hours_draw variation).isSome = true := by
  have hs := seasonalMultiplier_bounds month
  have hspos : 0 < seasonalMultiplier month := lt_of_lt_of_le (by norm_num) hs.1
  have hvpos : 0 < variation := by linarith [hvar.1]
  have hgpos : 0 < grossPay e month (if e.is_hourly then hours_draw else 80) variation := by
    unfold grossPay
    cases hb : e.is_hourly
    · simp only [hb, Bool.false_eq_true, if_false]
      simp only [hb, Bool.false_eq_true, if_false] at hcomp
      exact mul_pos (by positivity) (mul_pos hspos hvpos)
    · simp only [hb, if_true]
      simp only [hb, if_true] at hcomp
      have h70 : (0:ℚ) < hours_draw := by linarith [hhours.1]
      exact mul_pos (mul_pos h70 hcomp) (mul_pos hspos hvpos)
  refine ⟨hs, hgpos, ?_⟩
  unfold generatePayrollRecord
  rw [if_neg (ne_of_gt hgpos)]
  rfl

theorem gross_pay_positive_witness :
    (88/100 ≤ seasonalMultiplier 13 ∧ seasonalMultiplier 13 ≤ 110/100) ∧
    0 < grossPay empB 13 (if empB.is_hourly then 80 else 80) 1 ∧
    (generatePayrollRecord empB 13 13 80 1).isSome = true :=
  gross_pay_positive empB 13 13 80 1 (by norm_num [empB]) (by norm_num) (by norm_num)

/-- C4 counterexample: with a roster whose pre-calibration aggregate is 100
(positive) and the non-positive target 0, `_calibrate_salaries` does not fail
with any error: it proceeds with the scaling pass and multiplies every
employee's compensation by the factor 0/100 = 0. -/
theorem calibrator_invalid_target_cex :
    calibrate [empA] 0 = some [{ empA with annual_salary := 0, hourly_rate := 0 }] := by
  norm_num [calibrate, sumSalaries, empA]

/-- C4 amended: the calibration step aborts (with an unhandled
`ZeroDivisionError`, before mutating any employee's compensation) exactly
when the pre-calibration aggregate annual salary is zero; a non-positive
target alone causes no error and the scaling pass proceeds. -/
theorem calibrate_none_iff (roster : List Employee) (target : ℚ) :
    calibrate roster target = none ↔ sumSalaries roster = 0 := by
  unfold calibrate
  split
  · simp_all
  · simp_all

/-- `num_terminations = int(BASELINE_EMPLOYEES * 0.15 * 3)` (lines 167-168):
Python's `int()` truncates toward zero, which for this positive value is the
floor. -/
def num_terminations : ℕ := (⌊(BASELINE_EMPLOYEES : ℚ) * (15/100) * 3⌋).toNat

/-- C6 counterexample: the attempted termination count computed by the source
differs from `round(initial_headcount * annual_turnover_rate * window_years)`:
for headcount 24, rate 0.15 and 3 years the source computes `int(10.8) = 10`,
not `round(10.8) = 11`. -/
theorem termination_count_cex :
    num_terminations ≠ (round ((BASELINE_EMPLOYEES : ℚ) * (15/100) * 3)).toNat := by
  have h1 : (⌊(BASELINE_EMPLOYEES : ℚ) * (15/100) * 3⌋ : ℤ) = 10 := by
    norm_num [BASELINE_EMPLOYEES]
  have h2 : (round ((BASELINE_EMPLOYEES : ℚ) * (15/100) * 3) : ℤ) = 11 := by
    norm_num [BASELINE_EMPLOYEES, round_eq]
  simp [num_terminations, h1, h2]

/-- C6 amended: the lifecycle event generator computes the number of
termination events to attempt as `int(initial_headcount * annual_turnover_rate
* window_years)` — truncation, not rounding; for initial_headcount = 24,
annual_turnover_rate = 0.15 and window_years = 3 the attempted count is
`int(10.8) = 10`, one less than `round(10.8) = 11`. -/
theorem termination_count_truncated :
    num_terminations = 10 ∧ (round ((BASELINE_EMPLOYEES : ℚ) * (15/100) * 3)).toNat = 11 := by
  have h1 : (⌊(BASELINE_EMPLOYEES : ℚ) * (15/100) * 3⌋ : ℤ) = 10 := by
    norm_num [BASELINE_EMPLOYEES]
  have h2 : (round ((BASELINE_EMPLOYEES : ℚ) * (15/100) * 3) : ℤ) = 11 := by
    norm_num [BASELINE_EMPLOYEES, round_eq]
  simp [num_terminations, h1, h2]

/-- The bi-weekly period loop of `generate_payroll_data` (lines 225-241):
starting from `current`, `while current_date <= END: emit period ending at
current_date; current_date += 14 days`.  Returns the period-end dates in
order. -/
def payPeriods (current stop : ℕ) : List ℕ :=
  if h : current ≤ stop then current :: payPeriods (current + 14) stop else []
termination_by stop + 1 - current
decreasing_by omega

/-- The eligibility filter of `generate_payroll_data` (lines 229-233) and
`generate_time_tracking_data` (lines 331-335):
`hire_date <= d and (termination_date is None or termination_date > d)`. -/
def isActiveOn (e : Employee) (d : ℕ) : Bool :=
  decide (e.hire_date ≤ d) &&
    (match e.termination_date with
     | none => true
     | some t => decide (d < t))

/-- The (employee, pay-period-end) pairs for which `generate_payroll_data`
(lines 223-242) emits one payroll record: for every period end `d` in order,
one pair per roster employee passing the eligibility filter on `d`. -/
def payrollPairs (roster : List Employee) (start stop : ℕ) : List (Employee × ℕ) :=
  (payPeriods start stop).flatMap
    (fun d => (roster.filter (fun e => isActiveOn e d)).map (fun e => (e, d)))

theorem mem_payPeriods (d start stop : ℕ) :
    d ∈ payPeriods start stop ↔ start ≤ d ∧ d ≤ stop ∧ (d - start) % 14 = 0 := by
  induction start, stop using payPeriods.induct with
  | case1 c s h ih =>
      rw [payPeriods, dif_pos h, List.mem_cons, ih]
      omega
  | case2 c s h =>
      rw [payPeriods, dif_neg h]
      constructor
      · intro hmem
        exact absurd hmem (List.not_mem_nil d)
      · intro hcon
        exact absurd (le_trans hcon.1 hcon.2.1) h

theorem payPeriods_nodup (start stop : ℕ) : (payPeriods start stop).Nodup := by
  induction start, stop using payPeriods.induct with
  | case1 c s h ih =>
      rw [payPeriods, dif_pos h]
      refine List.nodup_cons.mpr ⟨?_, ih⟩
      intro hmem
      rw [mem_payPeriods] at hmem
      omega
  | case2 c s h =>
      rw [payPeriods, dif_neg h]
      exact List.nodup_nil

theorem count_filter_eq (p : Employee → Bool) (l : List Employee) (e : Employee) :
    (l.filter p).count e = if p e = true then l.count e else 0 := by
  induction l with
  | nil => simp
  | cons a t ih =>
      rw [List.filter_cons]
      by_cases hae : a = e
      · subst hae
        by_cases hpa : p a = true <;> simp [hpa, List.count_cons, ih]
      · by_cases hpa : p a = true <;> simp [hpa, List.count_cons, ih, hae]

theorem count_map_pair (l : List Employee) (e : Employee) (d : ℕ) :
    (l.map (fun x => (x, d))).count (e, d) = l.count e := by
  induction l with
  | nil => simp
  | cons a t ih =>
      rw [List.map_cons, List.count_cons, List.count_cons, ih]
      by_cases hae : a = e
      · subst hae
        simp
      · simp [hae]

theorem count_pairs_flatMap (roster : List Employee) (e : Employee) (d : ℕ)
    (l : List ℕ) (hnd : l.Nodup) :
    (l.flatMap (fun x =>
        (roster.filter (fun a => isActiveOn a x)).map (fun a => (a, x)))).count (e, d)
      = if d ∈ l ∧ isActiveOn e d = true then roster.count e else 0 := by
  induction l with
  | nil => simp
  | cons a t ih =>
      obtain ⟨ha, ht⟩ := List.nodup_cons.mp hnd
      rw [List.flatMap_cons, List.count_append, ih ht]
      by_cases had : a = d
      · subst had
        have hmem : ((roster.filter (fun x => isActiveOn x a)).map (fun x => (x, a))).count (e, a)
            = if isActiveOn e a = true then roster.count e else 0 := by
          rw [count_map_pair]
          exact count_filter_eq _ _ _
        have hzt : (if a ∈ t ∧ isActiveOn e a = true then roster.count e else 0) = 0 :=
          if_neg (fun hc => ha hc.1)
        rw [hmem, hzt, add_zero]
        by_cases hact : isActiveOn e a = true
        · rw [if_pos hact, if_pos ⟨List.mem_cons_self a t, hact⟩]
        · rw [if_neg hact, if_neg (fun hc => hact hc.2)]
      · have hz : ((roster.filter (fun x => isActiveOn x a)).map (fun x => (x, a))).count (e, d)
            = 0 := by
          rw [List.count_eq_zero]
          intro hmem
          obtain ⟨x, _, hx⟩ := List.mem_map.mp hmem
          exact had (congrArg Prod.snd hx)
        rw [hz, zero_add]
        by_cases hc : d ∈ t ∧ isActiveOn e d = true
        · rw [if_pos hc, if_pos ⟨List.mem_cons_of_mem a hc.1, hc.2⟩]
        · rw [if_neg hc, if_neg ?_]
          rintro ⟨hm, hact⟩
          rcases List.mem_cons.mp hm with hda | hdt
          · exact had hda.symm
          · exact hc ⟨hdt, hact⟩

theorem isActiveOn_iff (e : Employee) (d : ℕ) :
    isActiveOn e d = true ↔
      e.hire_date ≤ d ∧ (e.termination_date = none ∨
        ∃ t, e.termination_date = some t ∧ d < t) := by
  unfold isActiveOn
  cases ht : e.termination_date <;> simp [ht]

/-- C3: provided the employee occurs exactly once in the finalized roster
(employee ids are unique), `generate_payroll_data` emits exactly one payroll
record for the pair `(e, d)` iff `d` is one of the bi-weekly period boundaries
from the window start to the window end and `hire_date ≤ d` and the
termination date is null or `> d`; no record is emitted for any other pair.
The second conjunct characterizes the period boundaries: every 14th day from
`start` up to `stop`. -/
theorem payroll_emission_iff_active (roster : List Employee) (e : Employee)
    (d start stop : ℕ) (hone : roster.count e = 1) :
    ((payrollPairs roster start stop).count (e, d)
        = if d ∈ payPeriods start stop ∧
            (e.hire_date ≤ d ∧ (e.termination_date = none ∨
              ∃ t, e.termination_date = some t ∧ d < t)) then 1 else 0) ∧
    (d ∈ payPeriods start stop ↔ start ≤ d ∧ d ≤ stop ∧ (d - start) % 14 = 0) := by
  refine ⟨?_, mem_payPeriods d start stop⟩
  unfold payrollPairs
  rw [count_pairs_flatMap roster e d _ (payPeriods_nodup start stop), hone]
  exact if_congr (and_congr Iff.rfl (isActiveOn_iff e d)) rfl rfl

theorem payroll_emission_iff_active_witness :
    (((payrollPairs [empB] 0 28).count (empB, 14)
        = if 14 ∈ payPeriods 0 28 ∧
            (empB.hire_date ≤ 14 ∧ (empB.termination_date = none ∨
              ∃ t, empB.termination_date = some t ∧ 14 < t)) then 1 else 0) ∧
     (14 ∈ payPeriods 0 28 ↔ 0 ≤ 14 ∧ 14 ≤ 28 ∧ (14 - 0) % 14 = 0)) :=
  payroll_emission_iff_active [empB] empB 14 0 28 (by simp)

/-- `random.uniform(a, b) = a + (b - a) * random()` with raw draw `q`.
For `b < a` (which the source can produce in the allocation loop when
`remaining - 0.5 < 0.5`) the value lies between `b` and `a`, exactly as in
Python. -/
def uniformDraw (a b q : ℚ) : ℚ := a + (b - a) * q

/-- `_get_employee_projects` (lines 383-393): department-keyed project lists
with a three-entry default for unmapped departments. -/
def getEmployeeProjects (department : String) : List String :=
  if department = "Engineering" then
    ["Platform Core", "API Development", "DevOps", "Bug Fixes"]
  else if department = "Product" then
    ["Product Strategy", "Feature Planning", "User Research", "Analytics"]
  else if department = "Sales & Marketing" then
    ["Lead Generation", "Customer Outreach", "Marketing Campaigns", "Sales Support"]
  else if department = "Operations" then
    ["Admin Tasks", "HR Support", "Finance", "General Operations"]
  else if department = "Executive" then
    ["Strategy", "Leadership", "Board Meetings", "Planning"]
  else ["General Work", "Admin", "Meetings"]

/-- The allocation loop of `_generate_time_record` (lines 360-369): every
non-final project draws `hours = uniform(0.5, min(4, remaining - 0.5))`
(raw draw taken from the head of `qs`; a missing draw is read as raw 0,
which cannot occur in the source, where exactly one draw per non-final
project is made) and the final project receives all remaining hours. -/
def allocate : List String → ℚ → List ℚ → List (String × ℚ)
  | [], _, _ => []
  | [p], remaining, _ => [(p, remaining)]
  | p :: p2 :: ps, remaining, qs =>
      let hours := uniformDraw (1/2) (min 4 (remaining - 1/2)) (qs.headD 0)
      (p, hours) :: allocate (p2 :: ps) (remaining - hours) qs.tail

/-- The record dictionary returned by `_generate_time_record` (lines 371-381).
The `notes`, `source_type` and `filename` string fields are not modelled. -/
structure TimeTrackingRecord where
  employee_id : String
  employee_name : String
  work_date : ℕ
  total_hours : ℚ
  project_allocations : List (String × ℚ)
  billable_hours : ℚ
deriving DecidableEq, Repr

/-- `_generate_time_record` (lines 346-381): `none` when the compliance draw
exceeds 0.9 (10% of days are not tracked); otherwise
`total_hours = uniform(6.5, 9.5)` is distributed over the department's
project list and `billable_hours = total_hours * uniform(0.7, 0.95)`; every
stored hour value is rounded to 2 decimals. -/
def generateTimeRecord (e : Employee) (work_date : ℕ)
    (compliance_draw total_draw : ℚ) (qs : List ℚ) (billable_draw : ℚ) :
    Option TimeTrackingRecord :=
  if compliance_draw > 9/10 then none
  else
    some { employee_id := e.employee_id
           employee_name := e.employee_name
           work_date := work_date
           total_hours := round2 (uniformDraw (13/2) (19/2) total_draw)
           project_allocations :=
             (allocate (getEmployeeProjects e.department)
               (uniformDraw (13/2) (19/2) total_draw) qs).map
               (fun pv => (pv.1, round2 pv.2))
           billable_hours := round2 (uniformDraw (13/2) (19/2) total_draw *
             uniformDraw (7/10) (19/20) billable_draw) }

theorem allocate_sum : ∀ (projects : List String) (r : ℚ) (qs : List ℚ),
    projects ≠ [] → ((allocate projects r qs).map Prod.snd).sum = r
  | [], _, _, h => absurd rfl h
  | [p], r, qs, _ => by simp [allocate]
  | p :: p2 :: ps, r, qs, _ => by
      have ih := allocate_sum (p2 :: ps)
        (r - uniformDraw (1/2) (min 4 (r - 1/2)) (qs.headD 0)) qs.tail (by simp)
      simp only [allocate, List.map_cons, List.sum_cons]
      rw [ih]
      ring

theorem allocate_names : ∀ (projects : List String) (r : ℚ) (qs : List ℚ),
    (allocate projects r qs).map Prod.fst = projects
  | [], r, qs => by simp [allocate]
  | [p], r, qs => by simp [allocate]
  | p :: p2 :: ps, r, qs => by
      have ih := allocate_names (p2 :: ps)
        (r - uniformDraw (1/2) (min 4 (r - 1/2)) (qs.headD 0)) qs.tail
      simp only [allocate, List.map_cons]
      rw [ih]

theorem allocate_length (projects : List String) (r : ℚ) (qs : List ℚ) :
    (allocate projects r qs).length = projects.length := by
  have h := allocate_names projects r qs
  calc (allocate projects r qs).length
      = ((allocate projects r qs).map Prod.fst).length := (List.length_map _ _).symm
    _ = projects.length := by rw [h]

theorem getEmployeeProjects_length (d : String) :
    (getEmployeeProjects d).length = 3 ∨ (getEmployeeProjects d).length = 4 := by
  unfold getEmployeeProjects
  split_ifs <;> simp

/-- Precondition on the remaining hours that the allocation loop maintains,
indexed by how many projects are still to be served (at most 4 in the
source's project lists). -/
def allocPre : ℕ → ℚ → Prop
  | 0, _ => True
  | 1, r => 0 ≤ r
  | 2, r => 1/2 ≤ r
  | 3, r => 1 ≤ r
  | _ + 4, r => 5 ≤ r

theorem uniform_alloc_bounds (r q : ℚ) (hq0 : 0 ≤ q) (hq1 : q ≤ 1) (hr : 1/2 ≤ r) :
    0 ≤ uniformDraw (1/2) (min 4 (r - 1/2)) q ∧
    uniformDraw (1/2) (min 4 (r - 1/2)) q ≤ r ∧
    (1 ≤ r → uniformDraw (1/2) (min 4 (r - 1/2)) q ≤ r - 1/2) ∧
    (9/2 ≤ r → uniformDraw (1/2) (min 4 (r - 1/2)) q ≤ 4) := by
  have hbr : min 4 (r - 1/2) ≤ r - 1/2 := min_le_right _ _
  have hb4 : min 4 (r - 1/2) ≤ 4 := min_le_left _ _
  have hb0 : 0 ≤ min 4 (r - 1/2) := le_min (by norm_num) (by linarith)
  unfold uniformDraw
  rcases le_total (1/2 : ℚ) (min 4 (r - 1/2)) with hcase | hcase
  · have hmul0 : 0 ≤ (min 4 (r - 1/2) - 1/2) * q :=
      mul_nonneg (by linarith) hq0
    have hmul1 : (min 4 (r - 1/2) - 1/2) * q ≤ (min 4 (r - 1/2) - 1/2) * 1 :=
      mul_le_mul_of_nonneg_left hq1 (by linarith)
    refine ⟨by linarith, by linarith, fun h1 => by linarith, fun h45 => by linarith⟩
  · have hmul1 : (min 4 (r - 1/2) - 1/2) * 1 ≤ (min 4 (r - 1/2) - 1/2) * q := by
      apply mul_le_mul_of_nonpos_left hq1 (by linarith)
    have hmul0 : (min 4 (r - 1/2) - 1/2) * q ≤ 0 :=
      mul_nonpos_iff.mpr (Or.inr ⟨by linarith, hq0⟩)
    have hb12 : 1 ≤ r → 1/2 ≤ min 4 (r - 1/2) := fun h1 =>
      le_min (by norm_num) (by linarith)
    refine ⟨by linarith, by linarith, fun h1 => ?_, fun h45 => by linarith⟩
    have := hb12 h1
    linarith

theorem headD_mem_bounds (qs : List ℚ) (hq : ∀ q ∈ qs, 0 ≤ q ∧ q ≤ 1) :
    0 ≤ qs.headD 0 ∧ qs.headD 0 ≤ 1 := by
  cases qs with
  | nil => exact ⟨le_rfl, zero_le_one⟩
  | cons a t => exact hq a (List.mem_cons_self a t)

theorem tail_mem_bounds (qs : List ℚ) (hq : ∀ q ∈ qs, 0 ≤ q ∧ q ≤ 1) :
    ∀ q ∈ qs.tail, 0 ≤ q ∧ q ≤ 1 := by
  cases qs with
  | nil => intro q hmem; exact absurd hmem (List.not_mem_nil q)
  | cons a t => intro q hmem; exact hq q (List.mem_cons_of_mem a hmem)

theorem allocPre_half (n : ℕ) (r : ℚ) (h2 : 2 ≤ n) (h4 : n ≤ 4) (hpre : allocPre n r) :
    1/2 ≤ r := by
  interval_cases n
  · exact hpre
  · have h1 : (1:ℚ) ≤ r := hpre
    linarith
  · have h5 : (5:ℚ) ≤ r := hpre
    linarith

theorem allocate_nonneg : ∀ (projects : List String) (r : ℚ) (qs : List ℚ),
    projects.length ≤ 4 → allocPre projects.length r →
    (∀ q ∈ qs, 0 ≤ q ∧ q ≤ 1) →
    ∀ pv ∈ allocate projects r qs, 0 ≤ pv.2
  | [], _, _, _, _, _ => by
      intro pv hpv
      simp [allocate] at hpv
  | [p], r, qs, _, hpre, _ => by
      intro pv hpv
      simp only [allocate, List.mem_singleton] at hpv
      subst hpv
      exact hpre
  | p :: p2 :: ps, r, qs, hlen, hpre, hq => by
      intro pv hpv
      have hn2 : 2 ≤ (p :: p2 :: ps).length := by simp
      have hn4 : (p :: p2 :: ps).length ≤ 4 := hlen
      have hr12 : 1/2 ≤ r := allocPre_half _ r hn2 hn4 hpre
      obtain ⟨hq0, hq1⟩ := headD_mem_bounds qs hq
      have hb := uniform_alloc_bounds r (qs.headD 0) hq0 hq1 hr12
      have hpre' : allocPre (p2 :: ps).length
          (r - uniformDraw (1/2) (min 4 (r - 1/2)) (qs.headD 0)) := by
        have hlen' : ps.length + 2 ≤ 4 := by simpa using hlen
        rcases hps : ps.length with _ | m
        · have : (p2 :: ps).length = 1 := by simp [hps]
          rw [this]
          show 0 ≤ _
          linarith [hb.2.1]
        · rcases hm : m with _ | m2
          · have : (p2 :: ps).length = 2 := by simp [hps, hm]
            rw [this]
            show 1/2 ≤ _
            have h1r : (1:ℚ) ≤ r := by
              have : (p :: p2 :: ps).length = 3 := by simp [hps, hm]
              rw [this] at hpre
              exact hpre
            linarith [hb.2.2.1 h1r]
          · have hlen3 : (p2 :: ps).length = 3 := by
              have : ps.length = 2 := by omega
              simp [this]
            rw [hlen3]
            show 1 ≤ _
            have h5r : (5:ℚ) ≤ r := by
              have : (p :: p2 :: ps).length = 4 := by
                have : ps.length = 2 := by omega
                simp [this]
              rw [this] at hpre
              exact hpre
            linarith [hb.2.2.2 (by linarith : (9:ℚ)/2 ≤ r)]
      simp only [allocate, List.mem_cons] at hpv
      rcases hpv with rfl | hpv
      · exact hb.1
      · exact allocate_nonneg (p2 :: ps) _ qs.tail (by simp at hlen ⊢; omega) hpre'
          (tail_mem_bounds qs hq) pv hpv

theorem round2_nonneg (q : ℚ) (h : 0 ≤ q) : 0 ≤ round2 q := by
  unfold round2
  apply div_nonneg _ (by norm_num)
  have hz : (0:ℤ) ≤ round (q * 100) := by
    rw [round_eq]
    apply Int.floor_nonneg.mpr
    linarith
  exact_mod_cast hz

theorem sum_round2_cast (l : List ℚ) :
    (l.map round2).sum = ((l.map (fun a => round (a * 100))).sum : ℤ) / 100 := by
  induction l with
  | nil => simp
  | cons a t ih =>
      simp only [List.map_cons, List.sum_cons, ih, round2]
      push_cast
      ring

theorem sum_round2_close (l : List ℚ) :
    |(l.map round2).sum - l.sum| ≤ (l.length : ℚ) * (1/200) := by
  induction l with
  | nil => simp
  | cons a t ih =>
      simp only [List.map_cons, List.sum_cons, List.length_cons]
      have h1 := round2_sub_abs a
      have heq : round2 a + (t.map round2).sum - (a + t.sum)
          = (round2 a - a) + ((t.map round2).sum - t.sum) := by ring
      rw [heq]
      calc |(round2 a - a) + ((t.map round2).sum - t.sum)|
          ≤ |round2 a - a| + |(t.map round2).sum - t.sum| := abs_add _ _
        _ ≤ 1/200 + (t.length : ℚ) * (1/200) := by linarith
        _ = ((t.length + 1 : ℕ) : ℚ) * (1/200) := by push_cast; ring

theorem round2_sum_bound (l : List ℚ) (hlen : l.length ≤ 4) :
    |(l.map round2).sum - round2 l.sum| ≤ 1/50 := by
  have h1 := sum_round2_close l
  have h2 := round2_sub_abs l.sum
  have hlenQ : (l.length : ℚ) ≤ 4 := by exact_mod_cast hlen
  have hd : |(l.map round2).sum - round2 l.sum| ≤ 1/40 := by
    have h2' : |l.sum - round2 l.sum| ≤ 1/200 := by rwa [abs_sub_comm]
    calc |(l.map round2).sum - round2 l.sum|
        ≤ |(l.map round2).sum - l.sum| + |l.sum - round2 l.sum| := abs_sub_le _ _ _
      _ ≤ (l.length : ℚ) * (1/200) + 1/200 := by linarith
      _ ≤ 1/40 := by nlinarith
  have hcast : (l.map round2).sum - round2 l.sum
      = (((l.map (fun a => round (a * 100))).sum - round (l.sum * 100) : ℤ) : ℚ) / 100 := by
    rw [sum_round2_cast]
    simp only [round2]
    push_cast
    ring
  rw [hcast] at hd ⊢
  rw [abs_div, (by norm_num : |(100:ℚ)| = 100)] at hd ⊢
  set M : ℤ := (l.map (fun a => round (a * 100))).sum - round (l.sum * 100)
  have hmQ : |(M : ℚ)| ≤ 5/2 := by
    have := (div_le_div_iff₀ (by norm_num : (0:ℚ) < 100) (by norm_num : (0:ℚ) < 40)).mp hd
    linarith
  have hm2 : |M| ≤ 2 := by
    have h3 : |(M : ℚ)| < 3 := by linarith
    have h3' : |M| < 3 := by exact_mod_cast h3
    omega
  have hfin : |(M : ℚ)| ≤ 2 := by exact_mod_cast hm2
  linarith

/-- C7 amended: for every emitted TimeTrackingRecord, the sum of the stored
(rounded-to-2-decimals) project allocation values differs from the stored
`total_hours` by at most 0.02 — not 0.01 as claimed: rounding each of up to
four allocations and the total independently can move the stored sum two
cents away from the stored total (the counterexample attains 0.02) — and
every project of the department's list receives a non-negative share, the
allocation keys being exactly the department's project list. -/
theorem time_allocation_bounds (e : Employee) (work_date : ℕ)
    (compliance_draw total_draw : ℚ) (qs : List ℚ) (billable_draw : ℚ)
    (rec : TimeTrackingRecord)
    (hq : ∀ q ∈ qs, 0 ≤ q ∧ q ≤ 1)
    (ht0 : 0 ≤ total_draw) (ht1 : total_draw ≤ 1)
    (h : generateTimeRecord e work_date compliance_draw total_draw qs billable_draw
      = some rec) :
    |(rec.project_allocations.map Prod.snd).sum - rec.total_hours| ≤ 1/50 ∧
    (∀ pv ∈ rec.project_allocations, 0 ≤ pv.2) ∧
    rec.project_allocations.map Prod.fst = getEmployeeProjects e.department := by
  unfold generateTimeRecord at h
  obtain ⟨hc, hrec⟩ := Option.ite_none_left_eq_some.mp h
  obtain rfl := Option.some.inj hrec
  have hT65 : 13/2 ≤ uniformDraw (13/2) (19/2) total_draw := by
    unfold uniformDraw
    nlinarith
  have hlen34 := getEmployeeProjects_length e.department
  have hlen4 : (getEmployeeProjects e.department).length ≤ 4 := by
    rcases hlen34 with h3 | h4 <;> omega
  have hne : getEmployeeProjects e.department ≠ [] := by
    apply List.ne_nil_of_length_pos
    rcases hlen34 with h3 | h4 <;> omega
  have hpre : allocPre (getEmployeeProjects e.department).length
      (uniformDraw (13/2) (19/2) total_draw) := by
    rcases hlen34 with h3 | h4
    · rw [h3]
      show (1:ℚ) ≤ _
      linarith
    · rw [h4]
      show (5:ℚ) ≤ _
      linarith
  refine ⟨?_, ?_, ?_⟩
  · show |(((allocate (getEmployeeProjects e.department)
        (uniformDraw (13/2) (19/2) total_draw) qs).map
          (fun pv => (pv.1, round2 pv.2))).map Prod.snd).sum -
        round2 (uniformDraw (13/2) (19/2) total_draw)| ≤ 1/50
    have hmapmap : ((allocate (getEmployeeProjects e.department)
        (uniformDraw (13/2) (19/2) total_draw) qs).map
          (fun pv => (pv.1, round2 pv.2))).map Prod.snd
        = ((allocate (getEmployeeProjects e.department)
            (uniformDraw (13/2) (19/2) total_draw) qs).map Prod.snd).map round2 := by
      simp [List.map_map]
    rw [hmapmap]
    have hsum : ((allocate (getEmployeeProjects e.department)
        (uniformDraw (13/2) (19/2) total_draw) qs).map Prod.snd).sum
        = uniformDraw (13/2) (19/2) total_draw :=
      allocate_sum _ _ qs hne
    have hlength : ((allocate (getEmployeeProjects e.department)
        (uniformDraw (13/2) (19/2) total_draw) qs).map Prod.snd).length ≤ 4 := by
      rw [List.length_map, allocate_length]
      exact hlen4
    have hb := round2_sum_bound ((allocate (getEmployeeProjects e.department)
        (uniformDraw (13/2) (19/2) total_draw) qs).map Prod.snd) hlength
    rw [hsum] at hb
    exact hb
  · intro pv hpv
    obtain ⟨x, hx, hxeq⟩ := List.mem_map.mp hpv
    rw [← hxeq]
    exact round2_nonneg _ (allocate_nonneg _ _ qs hlen4 hpre hq x hx)
  · show ((allocate (getEmployeeProjects e.department)
        (uniformDraw (13/2) (19/2) total_draw) qs).map
          (fun pv => (pv.1, round2 pv.2))).map Prod.fst
      = getEmployeeProjects e.department
    simpa [List.map_map, Function.comp] using
      allocate_names (getEmployeeProjects e.department)
        (uniformDraw (13/2) (19/2) total_draw) qs

/-- The record emitted for `empA` (department Executive, four projects) on
all-zero draws: allocations 0.5/0.5/0.5/5.0 against total 6.5. -/
def recW : TimeTrackingRecord :=
  { employee_id := "EMP001", employee_name := "Sarah Johnson", work_date := 0,
    total_hours := 13/2,
    project_allocations := [("Strategy", 1/2), ("Leadership", 1/2),
      ("Board Meetings", 1/2), ("Planning", 5)],
    billable_hours := 91/20 }

theorem time_allocation_bounds_witness :
    |(recW.project_allocations.map Prod.snd).sum - recW.total_hours| ≤ 1/50 ∧
    (∀ pv ∈ recW.project_allocations, 0 ≤ pv.2) ∧
    recW.project_allocations.map Prod.fst = getEmployeeProjects empA.department :=
  time_allocation_bounds empA 0 0 0 [] 0 recW
    (by intro q hmem; exact absurd hmem (List.not_mem_nil q)) le_rfl zero_le_one
    (by norm_num [generateTimeRecord, uniformDraw, allocate, getEmployeeProjects,
      empA, recW, round2, round_eq, min_def])

/-- The record emitted for `empB` (department Engineering, four projects) on
the draw sequence of the C7 counterexample: every stored allocation rounds
up while the stored total rounds down. -/
def recCex : TimeTrackingRecord :=
  { employee_id := "EMP002", employee_name := "Michael Chen", work_date := 0,
    total_hours := 13/2,
    project_allocations := [("Platform Core", 51/100), ("API Development", 51/100),
      ("DevOps", 51/100), ("Bug Fixes", 499/100)],
    billable_hours := 91/20 }

/-- C7 counterexample: an in-range draw sequence (total 6.504, three non-final
draws of 0.506 each) for a four-project department produces a record whose
stored allocations sum to 6.52 while the stored `total_hours` is 6.50: the
difference is 0.02, violating the claimed 0.01 tolerance. -/
theorem time_allocation_cex :
    generateTimeRecord empB 0 0 (1/750) [3/1750, 3/1750, 3/1750] 0 = some recCex ∧
    (recCex.project_allocations.map Prod.snd).sum - recCex.total_hours = 1/50 ∧
    ¬ |(recCex.project_allocations.map Prod.snd).sum - recCex.total_hours| ≤ 1/100 := by
  have hsum : (recCex.project_allocations.map Prod.snd).sum - recCex.total_hours
      = 1/50 := by
    norm_num [recCex]
  refine ⟨?_, hsum, ?_⟩
  · norm_num [generateTimeRecord, uniformDraw, allocate, getEmployeeProjects,
      empB, recCex, round2, round_eq, min_def]
  · intro habs
    rw [hsum, abs_of_nonneg (by norm_num : (0:ℚ) ≤ 1/50)] at habs
    norm_num at habs

/-- A termination event dictionary (lines 176-182). -/
structure TermEvent where
  employee_id : String
  employee_name : String
  date : ℕ
  reason : String
deriving DecidableEq, Repr

/-- A hiring event dictionary (lines 212-218); `replacing` holds the
terminated employee's id. -/
structure HireEvent where
  employee_id : String
  employee_name : String
  date : ℕ
  replacing : String
deriving DecidableEq, Repr

/-- Zero-padding of `f"{n:03d}"`. -/
def pad3 (n : ℕ) : String :=
  if n < 10 then "00" ++ toString n
  else if n < 100 then "0" ++ toString n
  else toString n

/-- The replacement employee created at lines 197-208: title "Software
Engineer", department "Engineering", salary and hourly rate drawn from
`uniform(85000, 115000)` (two independent draws, the second divided by 2080),
id and name indexed by `len(events) + 1`. -/
def newEmployeeOf (hire_date : ℕ) (salary_draw rate_draw : ℚ) (cnt : ℕ) : Employee :=
  { employee_id := "NEW" ++ pad3 (cnt + 1)
    employee_name := "New Hire " ++ toString (cnt + 1)
    title := "Software Engineer"
    hire_date := hire_date
    annual_salary := uniformDraw 85000 115000 salary_draw
    hourly_rate := uniformDraw 85000 115000 rate_draw / 2080
    is_hourly := false
    department := "Engineering"
    active := true
    termination_date := none }

/-- The hiring event appended at lines 212-218. -/
def hireEventOf (t : TermEvent) (hire_date cnt : ℕ) : HireEvent :=
  { employee_id := "NEW" ++ pad3 (cnt + 1)
    employee_name := "New Hire " ++ toString (cnt + 1)
    date := hire_date
    replacing := t.employee_id }

theorem hireEventOf_replacing (t : TermEvent) (d k : ℕ) :
    (hireEventOf t d k).replacing = t.employee_id := rfl

theorem hireEventOf_date (t : TermEvent) (d k : ℕ) :
    (hireEventOf t d k).date = d := rfl

/-- The replacement-hire loop of `generate_hiring_termination_events`
(lines 188-221): for each termination event in order, draw
`hire_delay = randint(30, 180)`; if `termination_date + delay < END_DATE`,
append a new Employee and a Hiring event referencing the terminated
employee's id, advancing the `len(events)` counter `cnt`; otherwise skip.
`draws` holds one `(delay, salary_draw, rate_draw)` triple per termination
event (a missing triple is read as `(0, 0, 0)`; in the source exactly one
triple is consumed per event).  Returns the appended employees and hiring
events. -/
def replacementLoop (endDate : ℕ) :
    List TermEvent → List (ℕ × ℚ × ℚ) → ℕ → (List Employee × List HireEvent)
  | [], _, _ => ([], [])
  | t :: ts, draws, cnt =>
      if t.date + (draws.headD (0, 0, 0)).1 < endDate then
        (newEmployeeOf (t.date + (draws.headD (0, 0, 0)).1)
            (draws.headD (0, 0, 0)).2.1 (draws.headD (0, 0, 0)).2.2 cnt
            :: (replacementLoop endDate ts draws.tail (cnt + 1)).1,
         hireEventOf t (t.date + (draws.headD (0, 0, 0)).1) cnt
            :: (replacementLoop endDate ts draws.tail (cnt + 1)).2)
      else replacementLoop endDate ts draws.tail cnt

theorem getD_zero_eq_headD (l : List (ℕ × ℚ × ℚ)) (d : ℕ × ℚ × ℚ) :
    l.getD 0 d = l.headD d := by
  cases l <;> rfl

theorem getD_succ_eq_tail (l : List (ℕ × ℚ × ℚ)) (d : ℕ × ℚ × ℚ) (i : ℕ) :
    l.getD (i + 1) d = l.tail.getD i d := by
  cases l <;> rfl

theorem replacementLoop_filter_nil (endDate : ℕ) (s : String) :
    ∀ (terms : List TermEvent) (draws : List (ℕ × ℚ × ℚ)) (k : ℕ),
    s ∉ terms.map TermEvent.employee_id →
    (replacementLoop endDate terms draws k).2.filter (fun h => h.replacing == s) = []
  | [], _, _, _ => by simp [replacementLoop]
  | t :: ts, draws, k, hid => by
      have hne : t.employee_id ≠ s := by
        intro heq
        apply hid
        rw [List.map_cons, ← heq]
        exact List.mem_cons_self _ _
      have hid' : s ∉ ts.map TermEvent.employee_id := by
        intro hmem
        exact hid (by rw [List.map_cons]; exact List.mem_cons_of_mem _ hmem)
      unfold replacementLoop
      by_cases hc : t.date + (draws.headD (0, 0, 0)).1 < endDate
      · rw [if_pos hc]
        show List.filter _ (hireEventOf t _ k :: _) = []
        rw [List.filter_cons_of_neg (by simp [hireEventOf_replacing, hne])]
        exact replacementLoop_filter_nil endDate s ts draws.tail (k + 1) hid'
      · rw [if_neg hc]
        exact replacementLoop_filter_nil endDate s ts draws.tail k hid'

theorem replacementLoop_filter_spec (endDate : ℕ) :
    ∀ (terms : List TermEvent) (draws : List (ℕ × ℚ × ℚ)) (k i : ℕ)
    (hi : i < terms.length),
    (terms.map TermEvent.employee_id).Nodup →
    (((replacementLoop endDate terms draws k).2.filter
        (fun h => h.replacing == (terms.get ⟨i, hi⟩).employee_id)).length
      = if (terms.get ⟨i, hi⟩).date + (draws.getD i (0, 0, 0)).1 < endDate
        then 1 else 0) ∧
    (∀ h ∈ (replacementLoop endDate terms draws k).2,
        h.replacing = (terms.get ⟨i, hi⟩).employee_id →
          h.date = (terms.get ⟨i, hi⟩).date + (draws.getD i (0, 0, 0)).1)
  | [], _, _, i, hi, _ => absurd hi (by simp)
  | t :: ts, draws, k, 0, hi, hnd => by
      rw [List.map_cons, List.nodup_cons] at hnd
      obtain ⟨hni, hnd'⟩ := hnd
      show (((replacementLoop endDate (t :: ts) draws k).2.filter
          (fun h => h.replacing == t.employee_id)).length
        = if t.date + (draws.getD 0 (0, 0, 0)).1 < endDate then 1 else 0) ∧ _
      rw [getD_zero_eq_headD]
      unfold replacementLoop
      by_cases hc : t.date + (draws.headD (0, 0, 0)).1 < endDate
      · rw [if_pos hc, if_pos hc]
        constructor
        · show (List.filter _ (hireEventOf t _ k :: _)).length = 1
          rw [List.filter_cons_of_pos (by simp [hireEventOf_replacing])]
          rw [List.length_cons,
            replacementLoop_filter_nil endDate t.employee_id ts draws.tail (k + 1) hni]
          rfl
        · intro h hmem hrep
          rcases List.mem_cons.mp hmem with rfl | hmem'
          · exact hireEventOf_date t _ k
          · exfalso
            have : (replacementLoop endDate ts draws.tail (k + 1)).2.filter
                (fun x => x.replacing == t.employee_id) = [] :=
              replacementLoop_filter_nil endDate t.employee_id ts draws.tail (k + 1) hni
            have hmem2 : h ∈ (replacementLoop endDate ts draws.tail (k + 1)).2.filter
                (fun x => x.replacing == t.employee_id) :=
              List.mem_filter.mpr ⟨hmem', by simp [hrep]⟩
            rw [this] at hmem2
            exact absurd hmem2 (List.not_mem_nil h)
      · rw [if_neg hc, if_neg hc]
        constructor
        · rw [replacementLoop_filter_nil endDate t.employee_id ts draws.tail k hni]
          rfl
        · intro h hmem hrep
          exfalso
          have : (replacementLoop endDate ts draws.tail k).2.filter
              (fun x => x.replacing == t.employee_id) = [] :=
            replacementLoop_filter_nil endDate t.employee_id ts draws.tail k hni
          have hmem2 : h ∈ (replacementLoop endDate ts draws.tail k).2.filter
              (fun x => x.replacing == t.employee_id) :=
            List.mem_filter.mpr ⟨hmem, by simp [hrep]⟩
          rw [this] at hmem2
          exact absurd hmem2 (List.not_mem_nil h)
  | t :: ts, draws, k, i + 1, hi, hnd => by
      rw [List.map_cons, List.nodup_cons] at hnd
      obtain ⟨hni, hnd'⟩ := hnd
      have hi' : i < ts.length := by simpa using hi
      have hget : (t :: ts).get ⟨i + 1, hi⟩ = ts.get ⟨i, hi'⟩ := rfl
      rw [hget, getD_succ_eq_tail]
      have hne : t.employee_id ≠ (ts.get ⟨i, hi'⟩).employee_id := by
        intro heq
        apply hni
        rw [heq]
        exact List.mem_map_of_mem _ (ts.get_mem i hi')
      unfold replacementLoop
      by_cases hc : t.date + (draws.headD (0, 0, 0)).1 < endDate
      · rw [if_pos hc]
        have ih := replacementLoop_filter_spec endDate ts draws.tail (k + 1) i hi' hnd'
        constructor
        · show (List.filter _ (hireEventOf t _ k :: _)).length = _
          rw [List.filter_cons_of_neg (by simp [hireEventOf_replacing]; exact hne)]
          exact ih.1
        · intro h hmem hrep
          rcases List.mem_cons.mp hmem with rfl | hmem'
          · exact absurd (hireEventOf_replacing t _ k ▸ hrep) hne
          · exact ih.2 h hmem' hrep
      · rw [if_neg hc]
        have ih := replacementLoop_filter_spec endDate ts draws.tail k i hi' hnd'
        exact ih

/-- C8: in the event set emitted by the replacement loop, every termination
event is referenced (via `replacing`) by at most one hiring event; when a
referencing hiring event exists, its `hire_date` exceeds the termination date
by the 30-180 day delay (so `hire_date > termination_date` strictly); and
when none exists, the scheduled replacement date `termination_date + delay`
fell at or beyond the window end. -/
theorem replacement_continuity (endDate : ℕ) (terms : List TermEvent)
    (draws : List (ℕ × ℚ × ℚ)) (k i : ℕ) (hi : i < terms.length)
    (hnd : (terms.map TermEvent.employee_id).Nodup)
    (hdelay : 30 ≤ (draws.getD i (0, 0, 0)).1 ∧ (draws.getD i (0, 0, 0)).1 ≤ 180) :
    (((replacementLoop endDate terms draws k).2.filter
        (fun h => h.replacing == (terms.get ⟨i, hi⟩).employee_id)).length ≤ 1) ∧
    (∀ h ∈ (replacementLoop endDate terms draws k).2,
        h.replacing = (terms.get ⟨i, hi⟩).employee_id →
          (terms.get ⟨i, hi⟩).date < h.date ∧
          (terms.get ⟨i, hi⟩).date + 30 ≤ h.date ∧
          h.date ≤ (terms.get ⟨i, hi⟩).date + 180) ∧
    ((∀ h ∈ (replacementLoop endDate terms draws k).2,
        h.replacing ≠ (terms.get ⟨i, hi⟩).employee_id) →
      endDate ≤ (terms.get ⟨i, hi⟩).date + (draws.getD i (0, 0, 0)).1) := by
  obtain ⟨hlen, hdate⟩ := replacementLoop_filter_spec endDate terms draws k i hi hnd
  refine ⟨?_, ?_, ?_⟩
  · rw [hlen]
    split <;> omega
  · intro h hmem hrep
    have hd := hdate h hmem hrep
    omega
  · intro hnone
    have hfil : (replacementLoop endDate terms draws k).2.filter
        (fun h => h.replacing == (terms.get ⟨i, hi⟩).employee_id) = [] := by
      rw [List.filter_eq_nil_iff]
      intro a hmem
      simp only [beq_iff_eq]
      exact hnone a hmem
    rw [hfil] at hlen
    by_contra hlt
    rw [if_pos (by omega)] at hlen
    exact absurd hlen.symm (by simp)

/-- A concrete termination event for the replacement-continuity witness. -/
def termW : TermEvent :=
  { employee_id := "EMP001", employee_name := "Sarah Johnson",
    date := 10, reason := "voluntary" }

theorem replacement_continuity_witness :
    (((replacementLoop 100 [termW] [(30, 0, 0)] 1).2.filter
        (fun h => h.replacing == ([termW].get ⟨0, by simp⟩).employee_id)).length ≤ 1) ∧
    (∀ h ∈ (replacementLoop 100 [termW] [(30, 0, 0)] 1).2,
        h.replacing = ([termW].get ⟨0, by simp⟩).employee_id →
          ([termW].get ⟨0, by simp⟩).date < h.date ∧
          ([termW].get ⟨0, by simp⟩).date + 30 ≤ h.date ∧
          h.date ≤ ([termW].get ⟨0, by simp⟩).date + 180) ∧
    ((∀ h ∈ (replacementLoop 100 [termW] [(30, 0, 0)] 1).2,
        h.replacing ≠ ([termW].get ⟨0, by simp⟩).employee_id) →
      100 ≤ ([termW].get ⟨0, by simp⟩).date + (([(30, 0, 0)] : List (ℕ × ℚ × ℚ)).getD 0 (0, 0, 0)).1) :=
  replacement_continuity 100 [termW] [(30, 0, 0)] 1 0 (by simp)
    (by simp) (by simp)

/-- Modelled from the spec: the stream of raw draws of the seeded standard
library PRNG (`random.seed(seed)` at line 95, then successive `random`
module calls shared by the whole pipeline).  The Mersenne Twister itself is
external library code; it is modelled as an arbitrary but fixed
deterministic function of the seed and the draw index (a linear
congruential mix reduced to `[0, 1)`), which is all the determinism claim
depends on. -/
def dr (seed k : ℕ) : ℚ :=
  ((((seed + 1) * 48271 + (k + 1) * 16807) % 2147483647 : ℕ) : ℚ) / 2147483647

/-- `random.randint(a, b)` (inclusive bounds) driven by a raw draw. -/
def randintDraw (a b : ℕ) (q : ℚ) : ℕ :=
  a + min (b - a) (⌊q * ((b : ℚ) - (a : ℚ) + 1)⌋).toNat

/-- The index picked by `random.choice` on a list of length `n`, driven by a
raw draw. -/
def choiceIdx (q : ℚ) (n : ℕ) : ℕ := (⌊q * (n : ℚ)⌋).toNat % n

/-- One entry of `EMPLOYEE_PROFILES` (lines 27-49). -/
structure Profile where
  title : String
  lo : ℚ
  hi : ℚ
  hourly : Bool
deriving DecidableEq, Repr

/-- `EMPLOYEE_PROFILES` (lines 27-49). -/
def EMPLOYEE_PROFILES : List Profile :=
  [⟨"CEO", 180000, 220000, false⟩,
   ⟨"VP Engineering", 150000, 180000, false⟩,
   ⟨"Senior Software Engineer", 120000, 150000, false⟩,
   ⟨"Senior Data Engineer", 125000, 155000, false⟩,
   ⟨"DevOps Engineer", 115000, 145000, false⟩,
   ⟨"Product Manager", 110000, 140000, false⟩,
   ⟨"Software Engineer", 85000, 115000, false⟩,
   ⟨"Data Analyst", 75000, 95000, false⟩,
   ⟨"Marketing Manager", 70000, 90000, false⟩,
   ⟨"Sales Representative", 65000, 85000, false⟩,
   ⟨"Customer Success", 55000, 70000, false⟩,
   ⟨"Operations Coordinator", 50000, 65000, false⟩,
   ⟨"Administrative Assistant", 45000, 55000, false⟩,
   ⟨"Contractor", 75, 150, true⟩]

/-- The 24 names of `_generate_employee_roster` (lines 97-104). -/
def employee_names : List String :=
  ["Sarah Johnson", "Michael Chen", "Jessica Rodriguez", "David Kim",
   "Emily Davis", "Robert Wilson", "Ashley Brown", "Christopher Lee",
   "Amanda Martinez", "James Anderson", "Lauren Taylor", "Daniel Garcia",
   "Michelle Lewis", "Ryan Murphy", "Nicole White", "Kevin Scott",
   "Jennifer Thompson", "Mark Robinson", "Samantha Clark", "Brian Hall",
   "Rachel Green", "Justin Adams", "Melissa King", "Andrew Wright"]

/-- Substring test on character lists (`word in string` in Python). -/
def hasSub (w : List Char) : List Char → Bool
  | [] => decide (w = [])
  | c :: cs => decide ((c :: cs).take w.length = w) || hasSub w cs

/-- `word in title.lower()`. -/
def strContainsLower (title w : String) : Bool := hasSub w.toList title.toLower.toList

/-- `_assign_department` (lines 137-148): keyword classification of the job
title, with "Operations" as the fallback bucket. -/
def assign_department (title : String) : String :=
  if ["ceo", "vp"].any (fun w => strContainsLower title w) then "Executive"
  else if ["engineer", "devops", "data"].any (fun w => strContainsLower title w) then
    "Engineering"
  else if ["product", "manager"].any (fun w => strContainsLower title w) then "Product"
  else if ["marketing", "sales"].any (fun w => strContainsLower title w) then
    "Sales & Marketing"
  else "Operations"

/-- The configuration surface of the generator (the source hard-codes
`BASELINE_MONTHLY_COST`, `START_DATE` and `END_DATE` as module constants). -/
structure Config where
  baseline_monthly_cost : ℚ
  window_start : ℕ
  window_end : ℕ
deriving DecidableEq, Repr

/-- One iteration of the roster loop (lines 106-132) for employee index `i`:
a profile choice, one compensation draw (hourly rate times 2080 or annual
salary over 2080) and one hire-date draw `randint(0, 730)` past the window
start; stream indices `3i, 3i+1, 3i+2`. -/
def mkEmployee (cfg : Config) (seed i : ℕ) (name : String) : Employee :=
  { employee_id := "EMP" ++ pad3 (i + 1)
    employee_name := name
    title := (EMPLOYEE_PROFILES.getD
      (choiceIdx (dr seed (3*i)) EMPLOYEE_PROFILES.length) ⟨"", 0, 0, false⟩).title
    hire_date := cfg.window_start + randintDraw 0 730 (dr seed (3*i + 2))
    annual_salary := round2 (if (EMPLOYEE_PROFILES.getD
        (choiceIdx (dr seed (3*i)) EMPLOYEE_PROFILES.length) ⟨"", 0, 0, false⟩).hourly
      then uniformDraw (EMPLOYEE_PROFILES.getD
          (choiceIdx (dr seed (3*i)) EMPLOYEE_PROFILES.length) ⟨"", 0, 0, false⟩).lo
        (EMPLOYEE_PROFILES.getD
          (choiceIdx (dr seed (3*i)) EMPLOYEE_PROFILES.length) ⟨"", 0, 0, false⟩).hi
        (dr seed (3*i + 1)) * 2080
      else uniformDraw (EMPLOYEE_PROFILES.getD
          (choiceIdx (dr seed (3*i)) EMPLOYEE_PROFILES.length) ⟨"", 0, 0, false⟩).lo
        (EMPLOYEE_PROFILES.getD
          (choiceIdx (dr seed (3*i)) EMPLOYEE_PROFILES.length) ⟨"", 0, 0, false⟩).hi
        (dr seed (3*i + 1)))
    hourly_rate := round2 (if (EMPLOYEE_PROFILES.getD
        (choiceIdx (dr seed (3*i)) EMPLOYEE_PROFILES.length) ⟨"", 0, 0, false⟩).hourly
      then uniformDraw (EMPLOYEE_PROFILES.getD
          (choiceIdx (dr seed (3*i)) EMPLOYEE_PROFILES.length) ⟨"", 0, 0, false⟩).lo
        (EMPLOYEE_PROFILES.getD
          (choiceIdx (dr seed (3*i)) EMPLOYEE_PROFILES.length) ⟨"", 0, 0, false⟩).hi
        (dr seed (3*i + 1))
      else uniformDraw (EMPLOYEE_PROFILES.getD
          (choiceIdx (dr seed (3*i)) EMPLOYEE_PROFILES.length) ⟨"", 0, 0, false⟩).lo
        (EMPLOYEE_PROFILES.getD
          (choiceIdx (dr seed (3*i)) EMPLOYEE_PROFILES.length) ⟨"", 0, 0, false⟩).hi
        (dr seed (3*i + 1)) / 2080)
    is_hourly := (EMPLOYEE_PROFILES.getD
      (choiceIdx (dr seed (3*i)) EMPLOYEE_PROFILES.length) ⟨"", 0, 0, false⟩).hourly
    department := assign_department (EMPLOYEE_PROFILES.getD
      (choiceIdx (dr seed (3*i)) EMPLOYEE_PROFILES.length) ⟨"", 0, 0, false⟩).title
    active := true
    termination_date := none }

/-- `_generate_employee_roster` (lines 93-135) before calibration. -/
def mkRoster (cfg : Config) (seed : ℕ) : List Employee :=
  employee_names.enum.map (fun p => mkEmployee cfg seed p.1 p.2)

/-- Lines 184-186: mark the chosen employee inactive with the given
termination date. -/
def markTerminated (term_date : ℕ) (victim : String) (e : Employee) : Employee :=
  if e.employee_id = victim then
    { e with active := false, termination_date := some term_date }
  else e

/-- `random.choice` on the non-empty active list `a :: rest`, driven by the
draw at stream index `k`. -/
def chosenOf (seed k : ℕ) (a : Employee) (rest : List Employee) : Employee :=
  (a :: rest).getD (choiceIdx (dr seed k) (rest.length + 1)) a

/-- The termination loop (lines 170-186): `n` iterations; each picks a random
active employee, draws `term_date = window_start + randint(90, 1000)` and,
when the date falls before the window end, draws a reason, emits the event
and marks the employee terminated in the roster.  Three stream indices per
iteration (in the source the reason draw is only consumed on commit; the
random-access stream model assigns it a fixed index either way).  Returns
the updated roster, the events in order and the next draw index. -/
def terminationLoop (cfg : Config) (seed : ℕ) :
    ℕ → List Employee → ℕ → (List Employee × List TermEvent × ℕ)
  | 0, roster, k => (roster, [], k)
  | n + 1, roster, k =>
      match roster.filter (fun e => e.active) with
      | [] => terminationLoop cfg seed n roster (k + 3)
      | a :: rest =>
          if cfg.window_start + randintDraw 90 1000 (dr seed (k + 1)) < cfg.window_end then
            ((terminationLoop cfg seed n
                (roster.map (markTerminated
                  (cfg.window_start + randintDraw 90 1000 (dr seed (k + 1)))
                  (chosenOf seed k a rest).employee_id)) (k + 3)).1,
             { employee_id := (chosenOf seed k a rest).employee_id
               employee_name := (chosenOf seed k a rest).employee_name
               date := cfg.window_start + randintDraw 90 1000 (dr seed (k + 1))
               reason := (["voluntary", "performance", "layoff", "relocation"]).getD
                 (choiceIdx (dr seed (k + 2)) 4) "voluntary" }
               :: (terminationLoop cfg seed n
                (roster.map (markTerminated
                  (cfg.window_start + randintDraw 90 1000 (dr seed (k + 1)))
                  (chosenOf seed k a rest).employee_id)) (k + 3)).2.1,
             (terminationLoop cfg seed n
                (roster.map (markTerminated
                  (cfg.window_start + randintDraw 90 1000 (dr seed (k + 1)))
                  (chosenOf seed k a rest).employee_id)) (k + 3)).2.2)
          else terminationLoop cfg seed n roster (k + 3)

/-- One `(delay, salary draw, rate draw)` triple per termination event for
the replacement loop, laid out at stream indices `k + 3j ...`. -/
def tripleDraws (seed k n : ℕ) : List (ℕ × ℚ × ℚ) :=
  (List.range n).map (fun j =>
    (randintDraw 30 180 (dr seed (k + 3*j)), dr seed (k + 3*j + 1), dr seed (k + 3*j + 2)))

/-- The month (1-12) within a year given the day-of-year `r` and whether the
year is a leap year. -/
def monthInYear (leap : Bool) (r : ℕ) : ℕ :=
  if r < 31 then 1
  else if r < 59 + (if leap then 1 else 0) then 2
  else if r < 90 + (if leap then 1 else 0) then 3
  else if r < 120 + (if leap then 1 else 0) then 4
  else if r < 151 + (if leap then 1 else 0) then 5
  else if r < 181 + (if leap then 1 else 0) then 6
  else if r < 212 + (if leap then 1 else 0) then 7
  else if r < 243 + (if leap then 1 else 0) then 8
  else if r < 273 + (if leap then 1 else 0) then 9
  else if r < 304 + (if leap then 1 else 0) then 10
  else if r < 334 + (if leap then 1 else 0) then 11
  else 12

/-- `pay_date.month` for a day count from 2022-01-01 (2022 and 2023 have 365
days, 2024 is a leap year; days past the window take January). -/
def monthOfDate (d : ℕ) : ℕ :=
  if d < 365 then monthInYear false d
  else if d < 730 then monthInYear false (d - 365)
  else if d < 1096 then monthInYear true (d - 730)
  else 1

/-- The per-period inner loop of `generate_payroll_data` (lines 235-237):
one record per (already filtered) active employee, two stream indices per
record (hours draw — only used for hourly employees — and variation draw).
`none` aborts the whole run (unhandled `ZeroDivisionError` on zero gross
pay). -/
def payrollEmps (seed d : ℕ) :
    List Employee → ℕ → Option (List PayrollRecord × ℕ)
  | [], k => some ([], k)
  | e :: es, k =>
      (generatePayrollRecord e d (monthOfDate d) (uniformDraw 70 85 (dr seed k))
          (uniformDraw (19/20) (21/20) (dr seed (k + 1)))).bind fun r =>
        (payrollEmps seed d es (k + 2)).bind fun res =>
          some (r :: res.1, res.2)

/-- The outer loop of `generate_payroll_data` (lines 223-242) over the
bi-weekly period ends. -/
def payrollLoop (seed : ℕ) (roster : List Employee) :
    List ℕ → ℕ → Option (List PayrollRecord × ℕ)
  | [], k => some ([], k)
  | d :: ds, k =>
      (payrollEmps seed d (roster.filter (fun e => isActiveOn e d)) k).bind fun res =>
        (payrollLoop seed roster ds res.2).bind fun res' =>
          some (res.1 ++ res'.1, res'.2)

/-- The inner loop of `generate_time_tracking_data` (lines 337-340): one
optional record per active employee, six stream indices per employee
(compliance, total hours, three allocation draws, billable; in the source
later draws are only consumed when the compliance draw passes — the
random-access stream model assigns fixed indices either way). -/
def timeEmps (seed d : ℕ) : List Employee → ℕ → (List TimeTrackingRecord × ℕ)
  | [], k => ([], k)
  | e :: es, k =>
      match generateTimeRecord e d (dr seed k) (dr seed (k + 1))
        [dr seed (k + 2), dr seed (k + 3), dr seed (k + 4)] (dr seed (k + 5)) with
      | none => timeEmps seed d es (k + 6)
      | some r => (r :: (timeEmps seed d es (k + 6)).1, (timeEmps seed d es (k + 6)).2)

/-- The outer loop of `generate_time_tracking_data` (lines 326-344): every
day of the window, Monday-Friday only (day 0, 2022-01-01, was a Saturday:
the weekday index of day `d` is `(d + 5) % 7` with Monday = 0). -/
def timeLoop (seed : ℕ) (roster : List Employee) :
    ℕ → ℕ → ℕ → (List TimeTrackingRecord × ℕ)
  | current, stop, k =>
      if h : current ≤ stop then
        if (current + 5) % 7 < 5 then
          ((timeEmps seed current (roster.filter (fun e => isActiveOn e current)) k).1
             ++ (timeLoop seed roster (current + 1) stop
                  (timeEmps seed current (roster.filter (fun e => isActiveOn e current)) k).2).1,
           (timeLoop seed roster (current + 1) stop
              (timeEmps seed current (roster.filter (fun e => isActiveOn e current)) k).2).2)
        else timeLoop seed roster (current + 1) stop k
      else ([], k)
termination_by current stop _ => stop + 1 - current
decreasing_by all_goals omega

/-- A tagged lifecycle event, for the date-sorted combined event stream
(line 220). -/
inductive LifecycleEvent where
  | termination (ev : TermEvent)
  | hiring (ev : HireEvent)
deriving DecidableEq, Repr

/-- The date of a lifecycle event (the sort key of line 220). -/
def LifecycleEvent.date : LifecycleEvent → ℕ
  | .termination ev => ev.date
  | .hiring ev => ev.date

/-- The four output streams of a complete generation run. -/
structure RunOutputs where
  employees : List Employee
  events : List LifecycleEvent
  payroll_records : List PayrollRecord
  time_tracking_records : List TimeTrackingRecord
deriving DecidableEq, Repr

/-- The complete generation run of `main()` (lines 528-560) over the modelled
draw stream: roster generation (3 draws per employee), calibration to
`12 * baseline_monthly_cost`, the termination loop (3 draws per attempt),
the replacement loop (3 draws per termination), bi-weekly payroll
(2 draws per record) and daily time tracking (6 draws per active employee
per business day), with the lifecycle events date-sorted (stable) as at
line 220.  `none` models a run aborted by an unhandled exception (zero
calibration aggregate, or zero gross pay in the payroll stage). -/
def fullRun (cfg : Config) (seed : ℕ) : Option RunOutputs :=
  (calibrate (mkRoster cfg seed) (cfg.baseline_monthly_cost * 12)).bind fun roster1 =>
    (payrollLoop seed
        ((terminationLoop cfg seed num_terminations roster1 (3 * employee_names.length)).1
          ++ (replacementLoop cfg.window_end
              (terminationLoop cfg seed num_terminations roster1 (3 * employee_names.length)).2.1
              (tripleDraws seed
                (terminationLoop cfg seed num_terminations roster1 (3 * employee_names.length)).2.2
                (terminationLoop cfg seed num_terminations roster1 (3 * employee_names.length)).2.1.length)
              (terminationLoop cfg seed num_terminations roster1 (3 * employee_names.length)).2.1.length).1)
        (payPeriods cfg.window_start cfg.window_end)
        ((terminationLoop cfg seed num_terminations roster1 (3 * employee_names.length)).2.2
          + 3 * (terminationLoop cfg seed num_terminations roster1 (3 * employee_names.length)).2.1.length)).bind
      fun pres =>
        some { employees :=
                 (terminationLoop cfg seed num_terminations roster1 (3 * employee_names.length)).1
                   ++ (replacementLoop cfg.window_end
                       (terminationLoop cfg seed num_terminations roster1 (3 * employee_names.length)).2.1
                       (tripleDraws seed
                         (terminationLoop cfg seed num_terminations roster1 (3 * employee_names.length)).2.2
                         (terminationLoop cfg seed num_terminations roster1 (3 * employee_names.length)).2.1.length)
                       (terminationLoop cfg seed num_terminations roster1 (3 * employee_names.length)).2.1.length).1
               events :=
                 (((terminationLoop cfg seed num_terminations roster1 (3 * employee_names.length)).2.1.map
                     LifecycleEvent.termination)
                   ++ ((replacementLoop cfg.window_end
                       (terminationLoop cfg seed num_terminations roster1 (3 * employee_names.length)).2.1
                       (tripleDraws seed
                         (terminationLoop cfg seed num_terminations roster1 (3 * employee_names.length)).2.2
                         (terminationLoop cfg seed num_terminations roster1 (3 * employee_names.length)).2.1.length)
                       (terminationLoop cfg seed num_terminations roster1 (3 * employee_names.length)).2.1.length).2.map
                     LifecycleEvent.hiring)).mergeSort
                   (fun a b => decide (a.date ≤ b.date))
               payroll_records := pres.1
               time_tracking_records :=
                 (timeLoop seed
                   ((terminationLoop cfg seed num_terminations roster1 (3 * employee_names.length)).1
                     ++ (replacementLoop cfg.window_end
                         (terminationLoop cfg seed num_terminations roster1 (3 * employee_names.length)).2.1
                         (tripleDraws seed
                           (terminationLoop cfg seed num_terminations roster1 (3 * employee_names.length)).2.2
                           (terminationLoop cfg seed num_terminations roster1 (3 * employee_names.length)).2.1.length)
                         (terminationLoop cfg seed num_terminations roster1 (3 * employee_names.length)).2.1.length).1)
                   cfg.window_start cfg.window_end pres.2).1 }

/-- C9: the complete generation run is a deterministic function of the pair
(configuration, seed): two runs executed with the same configuration and the
same random seed produce identical output streams — the same employee
roster, date-sorted lifecycle events, payroll records and time-tracking
records, in the same order. -/
theorem run_deterministic (c₁ c₂ : Config) (s₁ s₂ : ℕ)
    (hc : c₁ = c₂) (hs : s₁ = s₂) : fullRun c₁ s₁ = fullRun c₂ s₂ := by
  subst hc
  subst hs
  rfl

theorem run_deterministic_witness :
    fullRun ⟨596000, 0, 1095⟩ 42 = fullRun ⟨596000, 0, 1095⟩ 42 :=
  run_deterministic ⟨596000, 0, 1095⟩ ⟨596000, 0, 1095⟩ 42 42 rfl rfl
